import Mathlib

/-!
Verification of the operator console for the web-scraping pipeline.

Two source files carry the behaviour under scrutiny:

* `static/js/index.js` — the `FashionScraper` class: task submission,
  progress channel (WebSocket) with reconnection, the bounded progress log,
  and the "clear" workflow that terminates every active task.
* the product editor script (`ProductEditor` class plus the free functions
  `addNewProduct`, `resetChanges`, `uploadProducts`, `fetchProductWeight`) —
  the dataset editor with dirty tracking, duplication, deletion, reset and
  the sequential enrichment pipeline.

The embedding is shallow: each JavaScript method becomes a Lean function on
an explicit state record.  JavaScript arrays that are only ever replaced
wholesale (`sizes`, `colors`, `categories`) are plain Lean lists; the one
array that the code mutates in place (`product_images`, via `splice`/`push`)
is modelled as a reference (a `Nat` index) into an explicit heap of image
lists, so that the sharing introduced by the shallow copy in `duplicateRow`
is observable, exactly as in the source.
-/

namespace Scraper

/-- `FashionScraper.addLogEntry`: the tail of the method appends the new
entry to the progress log and then, when the log holds more than 50
children, removes the first (oldest) child once. -/
def addLogEntry {α : Type} (log : List α) (e : α) : List α :=
  let l := log ++ [e]
  if 50 < l.length then l.drop 1 else l

/-- State of the `FashionScraper` instance: the fields touched by
submission, the WebSocket lifecycle and `resetScrapingState`.
`websocket = some tid` models a live socket object for task `tid`. -/
structure ScraperState where
  isScrapingActive : Bool
  currentTaskId : Option String
  websocket : Option String
  reconnectAttempts : Nat
deriving DecidableEq, Repr

/-- `this.maxReconnectAttempts = 5` from the constructor. -/
def maxReconnectAttempts : Nat := 5

/-- `resetScrapingState`: clears the scraping flag, the task id, and closes
and drops the websocket handle. -/
def resetScrapingState (s : ScraperState) : ScraperState :=
  { s with isScrapingActive := false, currentTaskId := none, websocket := none }

/-- `websocket.onopen`: a successful open resets `reconnectAttempts` to 0. -/
def wsOnOpen (s : ScraperState) : ScraperState :=
  { s with reconnectAttempts := 0 }

/-- `websocket.onclose`: while scraping is active and fewer than
`maxReconnectAttempts` attempts have been made, increment the counter and
schedule a reconnect after `2000 * reconnectAttempts` ms (the counter having
just been incremented).  Returns the new state and the scheduled delay, if
any. -/
def wsOnClose (s : ScraperState) : ScraperState × Option Nat :=
  if s.isScrapingActive ∧ s.reconnectAttempts < maxReconnectAttempts then
    let a := s.reconnectAttempts + 1
    ({ s with reconnectAttempts := a }, some (2000 * a))
  else
    (s, none)

/-- Run `n` consecutive unexpected closures (each reconnect attempt itself
ends in another unexpected closure); collect the scheduled delays in
order. -/
def closureDelays (s : ScraperState) : Nat → List Nat
  | 0 => []
  | n + 1 =>
    let r := wsOnClose s
    match r.2 with
    | some d => d :: closureDelays r.1 n
    | none => closureDelays r.1 n

/-- ASCII whitespace, as stripped by JavaScript `String.prototype.trim`
(which additionally strips Unicode space separators; the inputs here are
ASCII). -/
def isJsWhitespace (c : Char) : Bool :=
  c = ' ' ∨ c = '\t' ∨ c = '\n' ∨ c = '\r' ∨ c = '\x0b' ∨ c = '\x0c'

/-- JavaScript `s.trim()`: drop leading and trailing whitespace. -/
def jsTrim (s : String) : String :=
  String.mk (((s.data.dropWhile isJsWhitespace).reverse.dropWhile
    isJsWhitespace).reverse)

/-- JavaScript `s.split('\n')` on the character list: the segments between
newline characters (an empty string splits to one empty segment). -/
def splitLinesAux : List Char → List (List Char)
  | [] => [[]]
  | c :: rest =>
    if c = '\n' then [] :: splitLinesAux rest
    else
      match splitLinesAux rest with
      | [] => [[c]]
      | h :: t => (c :: h) :: t

/-- JavaScript `s.split('\n')`. -/
def splitNewlines (s : String) : List String :=
  (splitLinesAux s.data).map String.mk

/-- The URL list derived in `startScraping`:
`urls.split('\n').filter(url => url.trim()).map(url => url.trim())`
applied to the trimmed textarea content. -/
def urlListOf (input : String) : List String :=
  ((splitNewlines (jsTrim input)).filter (fun u => jsTrim u ≠ "")).map
    (fun u => jsTrim u)

/-- Outcome of the network part of a submission: the save-urls call fails,
the `/scrape/ai` call returns a non-OK status, the server answers with
`success:false`, or the task is accepted with a task id. -/
inductive SubmitOutcome where
  | saveFailed
  | scrapeHttpError
  | scrapeRejected
  | accepted (taskId : String)
deriving DecidableEq, Repr

/-- `startScraping`: an empty trimmed input, or an empty URL list after
splitting and filtering, aborts before any state is touched.  Otherwise
`isScrapingActive` is set, the network calls run, and on any thrown error
the `catch` block calls `resetScrapingState`; on success the task id is
recorded and `monitorProgress` opens the websocket for it. -/
def startScraping (s : ScraperState) (input : String) (o : SubmitOutcome) :
    ScraperState :=
  let urls := jsTrim input
  if urls = "" then s
  else
    let urlList := ((splitNewlines urls).filter (fun u => jsTrim u ≠ "")).map
      (fun u => jsTrim u)
    if urlList = [] then s
    else
      let s₁ := { s with isScrapingActive := true }
      match o with
      | .saveFailed => resetScrapingState s₁
      | .scrapeHttpError => resetScrapingState s₁
      | .scrapeRejected => resetScrapingState s₁
      | .accepted tid =>
        { s₁ with currentTaskId := some tid, websocket := some tid }

/-- Outcome of the `GET /api/active-tasks` call in `terminateActiveTasks`:
the fetch throws, answers non-OK, or returns the listed task ids. -/
inductive ListingOutcome where
  | threw
  | httpError
  | ok (taskIds : List String)
deriving DecidableEq, Repr

/-- Outcome of the `POST /api/terminate-tasks` call: thrown error, non-OK
response, or a response body with a terminated count and failed ids. -/
inductive TerminateOutcome where
  | threw
  | httpError
  | ok (totalTerminated : Nat) (failedTerminations : List String)
deriving DecidableEq, Repr

/-- `terminateActiveTasks`: fetch the active-task listing; on a non-OK or
thrown listing, or an empty listing, return without sending anything;
otherwise POST a terminate request carrying every listed task id.  All
errors are caught inside the method.  The returned list is the set of task
ids for which termination was requested. -/
def terminateActiveTasks (listing : ListingOutcome) : List String :=
  match listing with
  | .threw => []
  | .httpError => []
  | .ok taskIds => if taskIds = [] then [] else taskIds

/-- `clearAll`: first `await terminateActiveTasks()` (which never throws),
then clear the input and messages and call `resetScrapingState`
unconditionally.  Returns the new state and the ids whose termination was
requested. -/
def clearAll (s : ScraperState) (listing : ListingOutcome)
    (_term : TerminateOutcome) : ScraperState × List String :=
  let requested := terminateActiveTasks listing
  (resetScrapingState s, requested)

end Scraper

namespace Upload

/-- The body of a weight-lookup response, as `fetchProductWeight` inspects
it: `data.success`, a possibly-undefined top-level `data.weight`, and a
possibly-undefined nested `data.data.weight`. -/
structure WeightBody where
  success : Bool
  weight : Option Int
  dataWeight : Option Int
deriving DecidableEq, Repr

/-- Outcome of one call to the external weight lookup: the fetch throws, the
response is non-OK, or a JSON body arrives. -/
inductive WeightFetch where
  | threw
  | httpError (status : Nat)
  | ok (body : WeightBody)
deriving DecidableEq, Repr

/-- `fetchProductWeight`: a thrown error is caught and yields 0; a non-OK
response yields 0; otherwise the body is probed in order —
`data.success && data.weight !== undefined`, then `data.data.weight`, then
bare `data.weight`, else 0. -/
def fetchProductWeight (r : WeightFetch) : Int :=
  match r with
  | .threw => 0
  | .httpError _ => 0
  | .ok b =>
    if b.success ∧ b.weight.isSome then b.weight.getD 0
    else
      match b.dataWeight with
      | some w => w
      | none => b.weight.getD 0

/-- One record of the batch assembled by `collectProductData`, restricted to
the fields the upload loop reads or forwards. -/
structure URecord where
  product_name : String
  price : Int
  categories : List String
  weight : Int
deriving DecidableEq, Repr

/-- The per-record body of the `for (const [index, product] of
products.entries())` loop in `uploadProducts`: take the first category, and
only when it is a non-empty (truthy) string fetch its weight; otherwise the
weight stays 0. -/
def resolveWeight (lookup : String → WeightFetch) (p : URecord) : Int :=
  match p.categories.head? with
  | some c => if c ≠ "" then fetchProductWeight (lookup c) else 0
  | none => 0

/-- The enrichment stage of `uploadProducts`: the sequential loop visits the
records in batch order, resolves each record's weight from its own first
category, and pushes `{...product, weight}` onto `productsWithWeights`. -/
def enrichProducts (lookup : String → WeightFetch) (ps : List URecord) :
    List URecord :=
  ps.map (fun p => { p with weight := resolveWeight lookup p })

end Upload

namespace Editor

/-- One record of `this.products` in `ProductEditor`.  The fields the editor
replaces wholesale (`sizes`, `colors`, `categories`, scalars) are stored
directly; `product_images`, which the source mutates in place via
`splice`/`push` and which `duplicateRow`'s spread copies by reference, is a
reference (index) into the image heap of the `EditorState`. -/
structure Product where
  product_name : String
  price : Int
  discounted_price : Int
  premium : Bool
  availability : String
  description : String
  sizes : List String
  colors : List String
  material : String
  categories : List String
  product_images : Nat
  url : String
  timestamp : String
  extraction_method : String
deriving DecidableEq, Repr

/-- The mutable state of the editor page: the working sequence
`this.products`, the load-time snapshot `this.originalProducts`, the dirty
set `this.modifiedRows`, and the heap of image arrays that the
`product_images` references point into. -/
structure EditorState where
  products : List Product
  originalProducts : List Product
  modifiedRows : Finset Nat
  heap : List (List String)
deriving DecidableEq

/-- The four field names `getCurrentValues`/`updateProductValue` switch
over. -/
inductive Field where
  | sizes
  | colors
  | materials
  | categories
deriving DecidableEq, Repr

/-- `getCurrentValues(field, index)`: read the ordered value list of a field
of `this.products[index]`; `material` is presented as a 0-or-1-element list
(`product.material ? [product.material] : []`). -/
def getCurrentValues (s : EditorState) (f : Field) (i : Nat) : List String :=
  match s.products[i]? with
  | none => []
  | some p =>
    match f with
    | .sizes => p.sizes
    | .colors => p.colors
    | .materials => if p.material ≠ "" then [p.material] else []
    | .categories => p.categories

/-- The `switch (field)` of `updateProductValue` applied to one record:
`materials` stores `value.length > 0 ? value[0] : ''`, the others store the
list itself. -/
def setField (p : Product) (f : Field) (v : List String) : Product :=
  match f with
  | .sizes => { p with sizes := v }
  | .colors => { p with colors := v }
  | .materials => { p with material := v.headD "" }
  | .categories => { p with categories := v }

/-- `markModified(index)`: adds the row index to `this.modifiedRows`. -/
def markModified (s : EditorState) (i : Nat) : EditorState :=
  { s with modifiedRows := insert i s.modifiedRows }

/-- `updateProductValue(field, value, index)`: write the field of
`this.products[index]` and mark the row modified. -/
def updateProductValue (s : EditorState) (f : Field) (v : List String)
    (i : Nat) : EditorState :=
  match s.products[i]? with
  | none => s
  | some p => markModified { s with products := s.products.set i (setField p f v) } i

/-- The multi-select branch of `selectOption`: remove every occurrence when
the value is already included, append it otherwise. -/
def toggleValue (cv : List String) (v : String) : List String :=
  if v ∈ cv then cv.filter (fun x => x ≠ v) else cv ++ [v]

/-- `selectOption(field, index, value, multiple)`: toggle against the
current values when `multiple`, replace them by `[value]` otherwise, then
`updateProductValue` (which marks the row modified) and `markModified`
again. -/
def selectOption (s : EditorState) (f : Field) (i : Nat) (v : String)
    (multiple : Bool) : EditorState :=
  let cv := getCurrentValues s f i
  let cv' := if multiple then toggleValue cv v else [v]
  markModified (updateProductValue s f cv' i) i

/-- `removeOption(field, index, value)`: filter the value out and write the
result back. -/
def removeOption (s : EditorState) (f : Field) (i : Nat) (v : String) :
    EditorState :=
  let cv' := (getCurrentValues s f i).filter (fun x => x ≠ v)
  markModified (updateProductValue s f cv' i) i

/-- `duplicateRow(index)`: `{...this.products[index]}` — a shallow copy, so
the `product_images` reference is shared — with `' (Copy)'` appended to the
name, pushed onto the end of the working sequence.  The dirty set is not
touched. -/
def duplicateRow (s : EditorState) (i : Nat) : EditorState :=
  match s.products[i]? with
  | none => s
  | some p =>
    { s with
      products := s.products ++ [{ p with product_name := p.product_name ++ " (Copy)" }] }

/-- `deleteRow(index)` (the confirmed branch): `splice(index, 1)` on the
working sequence and `this.modifiedRows.delete(index)`.  Nothing else is
re-keyed. -/
def deleteRow (s : EditorState) (i : Nat) : EditorState :=
  { s with
    products := s.products.eraseIdx i
    modifiedRows := s.modifiedRows.erase i }

/-- The record literal built by `addNewProduct`, parametrised by the
timestamp string and the fresh reference holding its (empty) image array. -/
def newProduct (ts : String) (ref : Nat) : Product :=
  { product_name := "New Product"
    price := 0
    discounted_price := 0
    premium := false
    availability := "in-stock"
    description := ""
    sizes := []
    colors := []
    material := ""
    categories := []
    product_images := ref
    url := ""
    timestamp := ts
    extraction_method := "manual_add" }

/-- `addNewProduct()`: push the fixed new record (with a fresh empty image
array) onto the working sequence.  Neither the dirty set nor any existing
row is touched. -/
def addNewProduct (s : EditorState) (ts : String) : EditorState :=
  { s with
    products := s.products ++ [newProduct ts s.heap.length]
    heap := s.heap ++ [[]] }

/-- `removeImage(productIndex, imageIndex)` (the confirmed branch):
`this.products[productIndex].product_images.splice(imageIndex, 1)` — an
in-place mutation of the shared image array — then `markModified`. -/
def removeImage (s : EditorState) (pIdx : Nat) (iIdx : Nat) : EditorState :=
  match s.products[pIdx]? with
  | none => s
  | some p =>
    let cell := s.heap.getD p.product_images []
    markModified
      { s with heap := s.heap.set p.product_images (cell.eraseIdx iIdx) } pIdx

/-- `addImage(productIndex)` with a validated URL:
`product_images.push(trimmedUrl)` on the shared array, then
`markModified`. -/
def addImage (s : EditorState) (pIdx : Nat) (u : String) : EditorState :=
  match s.products[pIdx]? with
  | none => s
  | some p =>
    let cell := s.heap.getD p.product_images []
    markModified
      { s with heap := s.heap.set p.product_images (cell ++ [u]) } pIdx

/-- `JSON.parse(JSON.stringify(ps))`: a deep copy — every record gets a
fresh image array (allocated at the end of the heap) holding a copy of the
referenced contents. -/
def deepCopyProducts : List (List String) → List Product →
    List Product × List (List String)
  | heap, [] => ([], heap)
  | heap, p :: rest =>
    let r := deepCopyProducts (heap ++ [heap.getD p.product_images []]) rest
    ({ p with product_images := heap.length } :: r.1, r.2)

/-- `resetChanges()` (the confirmed branch):
`products := JSON.parse(JSON.stringify(originalProducts))` and
`modifiedRows.clear()`. -/
def resetChanges (s : EditorState) : EditorState :=
  let r := deepCopyProducts s.heap s.originalProducts
  { products := r.1
    originalProducts := s.originalProducts
    modifiedRows := ∅
    heap := r.2 }

/-- The editing operations the UI dispatches to the editor between load and
reset: field writes, option toggles and removals, duplication, deletion,
manual addition, and image removal/addition. -/
inductive EditOp where
  | setValues (f : Field) (i : Nat) (v : List String)
  | toggle (f : Field) (i : Nat) (v : String) (multiple : Bool)
  | removeOpt (f : Field) (i : Nat) (v : String)
  | duplicate (i : Nat)
  | delete (i : Nat)
  | addNew (ts : String)
  | removeImg (pIdx iIdx : Nat)
  | addImg (pIdx : Nat) (u : String)
deriving DecidableEq, Repr

/-- Dispatch one `EditOp` to the corresponding source method. -/
def applyOp (s : EditorState) : EditOp → EditorState
  | .setValues f i v => updateProductValue s f v i
  | .toggle f i v m => selectOption s f i v m
  | .removeOpt f i v => removeOption s f i v
  | .duplicate i => duplicateRow s i
  | .delete i => deleteRow s i
  | .addNew ts => addNewProduct s ts
  | .removeImg pIdx iIdx => removeImage s pIdx iIdx
  | .addImg pIdx u => addImage s pIdx u

/-- Apply a whole sequence of edits in order. -/
def applyOps (s : EditorState) (ops : List EditOp) : EditorState :=
  ops.foldl applyOp s

/-- A record with its image reference resolved: the observable (deep) value
of a row. -/
structure DeepProduct where
  product_name : String
  price : Int
  discounted_price : Int
  premium : Bool
  availability : String
  description : String
  sizes : List String
  colors : List String
  material : String
  categories : List String
  images : List String
  url : String
  timestamp : String
  extraction_method : String
deriving DecidableEq, Repr

/-- Resolve one record against a heap. -/
def deepOf (heap : List (List String)) (p : Product) : DeepProduct :=
  { product_name := p.product_name
    price := p.price
    discounted_price := p.discounted_price
    premium := p.premium
    availability := p.availability
    description := p.description
    sizes := p.sizes
    colors := p.colors
    material := p.material
    categories := p.categories
    images := heap.getD p.product_images []
    url := p.url
    timestamp := p.timestamp
    extraction_method := p.extraction_method }

/-- Resolve a whole sequence of records: its deep (JSON-observable) value. -/
def deepProducts (heap : List (List String)) (ps : List Product) :
    List DeepProduct :=
  ps.map (deepOf heap)

/-- The observable image list of row `k`. -/
def deepImages (s : EditorState) (k : Nat) : List String :=
  match s.products[k]? with
  | none => []
  | some p => s.heap.getD p.product_images []

/-- Structural independence of the snapshot, as established by the deep copy
at load time (`originalProducts = JSON.parse(JSON.stringify(products))`):
every snapshot record points at a live heap cell that no working record
aliases. -/
def origOK (s : EditorState) : Prop :=
  ∀ p ∈ s.originalProducts,
    p.product_images < s.heap.length ∧
      ∀ q ∈ s.products, q.product_images ≠ p.product_images

instance (s : EditorState) : Decidable (origOK s) := by
  unfold origOK; infer_instance

/-- What editing steps preserve about the snapshot: the snapshot itself, the
heap cells its records point at, and the fact that the heap only grows. -/
def origPreserved (s t : EditorState) : Prop :=
  t.originalProducts = s.originalProducts ∧
  s.heap.length ≤ t.heap.length ∧
  ∀ p ∈ s.originalProducts,
    t.heap.getD p.product_images [] = s.heap.getD p.product_images []

end Editor

/-- Concrete enrichment batch for the claim C6 scenario: five records with
distinct categories. -/
def exBatch : List Upload.URecord :=
  [⟨"p1", 100, ["c1"], 0⟩, ⟨"p2", 200, ["c2"], 0⟩, ⟨"p3", 300, ["c3"], 0⟩,
    ⟨"p4", 400, ["c4"], 0⟩, ⟨"p5", 500, ["c5"], 0⟩]

/-- Concrete lookup for the claim C6 scenario: the third category's lookup
throws, every other category resolves. -/
def exLookup : String → Upload.WeightFetch := fun c =>
  if c = "c1" then .ok ⟨true, some 11, none⟩
  else if c = "c2" then .ok ⟨true, some 12, none⟩
  else if c = "c3" then .threw
  else if c = "c4" then .ok ⟨false, none, some 14⟩
  else if c = "c5" then .ok ⟨true, some 15, none⟩
  else .httpError 404

namespace Editor

/-- A concrete demo record: the `addNewProduct` literal with a chosen name
and image reference. -/
def exP (n : String) (r : Nat) : Product :=
  { newProduct "t" r with product_name := n }

/-- Concrete editor state for claim C1: three rows, row 2 dirty. -/
def exDeleteState : EditorState :=
  { products := [exP "a" 0, exP "b" 1, exP "c" 2]
    originalProducts := []
    modifiedRows := {2}
    heap := [[], [], []] }

/-- Concrete editor state for claim C2: one row with sizes `["S", "M"]`. -/
def exToggleState : EditorState :=
  { products := [{ exP "a" 0 with sizes := ["S", "M"] }]
    originalProducts := []
    modifiedRows := ∅
    heap := [[]] }

/-- Concrete editor state for claim C3: a one-row working set and a two-row
snapshot whose image cells are disjoint from the working set's, as the
load-time deep copy guarantees. -/
def exResetState : EditorState :=
  { products := [exP "w0" 0]
    originalProducts := [exP "w0" 1, { exP "o1" 2 with colors := ["Red"] }]
    modifiedRows := ∅
    heap := [["img0"], ["img0"], ["img1"]] }

/-- Concrete edit sequence for claim C3: a toggle, a duplication, a manual
addition, an image removal, a deletion, a field write, and an image
addition. -/
def exResetOps : List EditOp :=
  [.toggle .colors 0 "Blue" true, .duplicate 0, .addNew "ts",
    .removeImg 0 0, .delete 1, .setValues .sizes 0 ["XL"], .addImg 0 "u"]

/-- Concrete editor state for claim C9: one row whose image array holds two
URLs. -/
def exDupState : EditorState :=
  { products := [exP "g" 0]
    originalProducts := []
    modifiedRows := ∅
    heap := [["i1", "i2"]] }

end Editor

set_option maxRecDepth 4000 in
/-- Claim C4: the progress log is FIFO-capped at 50 entries — when the log
is full each append evicts exactly the oldest entry, and appending 60
entries to an empty log leaves exactly the last 50 in order, the 10 oldest
evicted. -/
theorem claim_C4_log_cap {α : Type} (log : List α) (e : α)
    (hfull : log.length = 50) :
    Scraper.addLogEntry log e = log.drop 1 ++ [e] ∧
    List.foldl Scraper.addLogEntry ([] : List Nat) (List.range 60) =
      (List.range 60).drop 10 ∧
    ∀ (l : List α) (x : α), l.length < 50 → Scraper.addLogEntry l x = l ++ [x] := by
  refine ⟨?_, by decide, ?_⟩
  · unfold Scraper.addLogEntry
    rw [if_pos (by simp [hfull])]
    exact List.drop_append_of_le_length (by omega)
  · intro l x hl
    unfold Scraper.addLogEntry
    rw [if_neg (by simp; omega)]

/-- Claim C4 witness: the general eviction law applied to a concrete full
log of 50 entries. -/
theorem claim_C4_log_cap_witness :
    (List.range 50).length = 50 ∧
    Scraper.addLogEntry (List.range 50) 50 = (List.range 50).drop 1 ++ [50] :=
  ⟨by decide, (claim_C4_log_cap (List.range 50) 50 (by decide)).1⟩

/-- Claim C5: on an unexpected closure while the task is active, the channel
increments the attempt counter (starting from 0) and schedules a reconnect
after `2000 ms × the new attempt number`; it schedules nothing once 5
attempts were made; 6 consecutive unexpected closures yield exactly the 5
delays 2000, 4000, 6000, 8000, 10000 ms; a successful open resets the
counter to 0. -/
theorem claim_C5_reconnect_backoff (s : Scraper.ScraperState)
    (hact : s.isScrapingActive = true)
    (hlt : s.reconnectAttempts < Scraper.maxReconnectAttempts) :
    (Scraper.wsOnClose s).2 = some (2000 * (s.reconnectAttempts + 1)) ∧
    (Scraper.wsOnClose s).1.reconnectAttempts = s.reconnectAttempts + 1 ∧
    (∀ t : Scraper.ScraperState,
      Scraper.maxReconnectAttempts ≤ t.reconnectAttempts →
        (Scraper.wsOnClose t).2 = none ∧ (Scraper.wsOnClose t).1 = t) ∧
    (∀ t : Scraper.ScraperState, (Scraper.wsOnOpen t).reconnectAttempts = 0) ∧
    Scraper.closureDelays
        { isScrapingActive := true, currentTaskId := some "t1",
          websocket := some "t1", reconnectAttempts := 0 } 6 =
      [2000, 4000, 6000, 8000, 10000] := by
  refine ⟨?_, ?_, ?_, fun t => rfl, by decide⟩
  · simp [Scraper.wsOnClose, hact, hlt]
  · simp [Scraper.wsOnClose, hact, hlt]
  · intro t ht
    have : ¬(t.isScrapingActive ∧ t.reconnectAttempts < Scraper.maxReconnectAttempts) := by
      rintro ⟨-, hc⟩; omega
    simp [Scraper.wsOnClose, this]

/-- Claim C5 witness: the backoff law applied to a concrete active state
with 2 attempts already made (third delay is 6000 ms). -/
theorem claim_C5_reconnect_backoff_witness :
    (Scraper.wsOnClose
        { isScrapingActive := true, currentTaskId := some "t9",
          websocket := some "t9", reconnectAttempts := 2 }).2 = some 6000 :=
  (claim_C5_reconnect_backoff
    { isScrapingActive := true, currentTaskId := some "t9",
      websocket := some "t9", reconnectAttempts := 2 }
    rfl (by decide)).1

/-- Claim C8: "clear" requests termination of every task id returned by the
active-task listing (and of none when the listing fails or is empty), and
unconditionally returns the client to idle — scraping flag cleared, task id
cleared, connection closed — whatever the termination outcome was. -/
theorem claim_C8_clear_terminates_all (s : Scraper.ScraperState)
    (listing : Scraper.ListingOutcome) (term : Scraper.TerminateOutcome) :
    ((Scraper.clearAll s listing term).2 =
      match listing with
      | .ok ids => ids
      | .threw => []
      | .httpError => []) ∧
    (Scraper.clearAll s listing term).1.isScrapingActive = false ∧
    (Scraper.clearAll s listing term).1.currentTaskId = none ∧
    (Scraper.clearAll s listing term).1.websocket = none := by
  refine ⟨?_, rfl, rfl, rfl⟩
  cases listing with
  | threw => rfl
  | httpError => rfl
  | ok ids =>
    show Scraper.terminateActiveTasks (.ok ids) = ids
    unfold Scraper.terminateActiveTasks
    split <;> simp_all

/-- Claim C7: when the URL input is empty after trimming and splitting on
newlines, `startScraping` aborts with a validation message and performs no
state change at all; when validation passes but the submission fails at the
network or server level, the controller ends idle — scraping flag false,
no task id, no open connection. -/
theorem claim_C7_submit_validation (s : Scraper.ScraperState) (input : String)
    (o : Scraper.SubmitOutcome) :
    (Scraper.urlListOf input = [] → Scraper.startScraping s input o = s) ∧
    (o = .saveFailed ∨ o = .scrapeHttpError ∨ o = .scrapeRejected →
      let s' := Scraper.startScraping s input o
      (s'.isScrapingActive = false ∧ s'.currentTaskId = none ∧
        s'.websocket = none) ∨ s' = s) ∧
    (Scraper.urlListOf input ≠ [] →
      o = .saveFailed ∨ o = .scrapeHttpError ∨ o = .scrapeRejected →
      let s' := Scraper.startScraping s input o
      s'.isScrapingActive = false ∧ s'.currentTaskId = none ∧
        s'.websocket = none) := by
  unfold Scraper.startScraping Scraper.urlListOf
  by_cases h1 : Scraper.jsTrim input = ""
  · have hempty :
        ((Scraper.splitNewlines (Scraper.jsTrim input)).filter
          (fun u => Scraper.jsTrim u ≠ "")).map (fun u => Scraper.jsTrim u) = [] := by
      rw [h1]; decide
    refine ⟨fun _ => by simp [h1], ?_, ?_⟩
    · intro _; right; simp [h1]
    · intro hne _
      exact absurd hempty hne
  · rw [if_neg h1]
    by_cases h2 :
        ((Scraper.splitNewlines (Scraper.jsTrim input)).filter
          (fun u => Scraper.jsTrim u ≠ "")).map (fun u => Scraper.jsTrim u) = []
    · refine ⟨fun _ => by rw [if_pos h2], ?_, fun hne => absurd h2 hne⟩
      intro _; right; rw [if_pos h2]
    · refine ⟨fun hc => absurd hc h2, ?_, ?_⟩
      · rintro (rfl | rfl | rfl) <;>
          exact Or.inl (by rw [if_neg h2]; exact ⟨rfl, rfl, rfl⟩)
      · rintro - (rfl | rfl | rfl) <;>
          exact (by rw [if_neg h2]; exact ⟨rfl, rfl, rfl⟩)

/-- Claim C6: enrichment visits the batch in order; record `k` of the
output is record `k` of the input with its weight resolved from its own
first category; a thrown lookup, a non-OK response, an unrecognized
response shape, or a missing category all yield weight 0 without stopping
the batch. -/
theorem claim_C6_sequential_enrichment (lookup : String → Upload.WeightFetch)
    (ps : List Upload.URecord) (k : Nat) (hk : k < ps.length) :
    (Upload.enrichProducts lookup ps).length = ps.length ∧
    (Upload.enrichProducts lookup ps)[k]? =
      some { ps.get ⟨k, hk⟩ with
              weight := Upload.resolveWeight lookup (ps.get ⟨k, hk⟩) } ∧
    Upload.fetchProductWeight .threw = 0 ∧
    (∀ st : Nat, Upload.fetchProductWeight (.httpError st) = 0) ∧
    Upload.fetchProductWeight (.ok ⟨false, none, none⟩) = 0 ∧
    (∀ p : Upload.URecord, p.categories = [] →
      Upload.resolveWeight lookup p = 0) := by
  refine ⟨by simp [Upload.enrichProducts], ?_, rfl, fun st => rfl, by decide, ?_⟩
  · have : ps[k]? = some (ps.get ⟨k, hk⟩) := by
      simp [List.getElem?_eq_getElem hk]
    simp [Upload.enrichProducts, List.getElem?_map, this]
  · intro p hp
    simp [Upload.resolveWeight, hp]

/-- Claim C6 witness: on a batch of 5 records whose 3rd weight lookup
throws, the pipeline returns 5 records in original order, the 3rd with
weight 0 and the others with their resolved values. -/
theorem claim_C6_sequential_enrichment_witness :
    (Upload.enrichProducts exLookup exBatch)[2]? =
      some ⟨"p3", 300, ["c3"], 0⟩ ∧
    Upload.enrichProducts exLookup exBatch =
      [⟨"p1", 100, ["c1"], 11⟩, ⟨"p2", 200, ["c2"], 12⟩,
        ⟨"p3", 300, ["c3"], 0⟩, ⟨"p4", 400, ["c4"], 14⟩,
        ⟨"p5", 500, ["c5"], 15⟩] :=
  ⟨((claim_C6_sequential_enrichment exLookup exBatch 2 (by decide)).2.1).trans
    (by decide), by decide⟩

/-- Claim C7 witness: the validation law at a whitespace-only input, and the
failure law at a real URL with a rejected submission, both from a busy
state. -/
theorem claim_C7_submit_validation_witness :
    (Scraper.startScraping
        { isScrapingActive := true, currentTaskId := some "t0",
          websocket := some "t0", reconnectAttempts := 3 }
        "  \n \n" Scraper.SubmitOutcome.scrapeRejected =
      { isScrapingActive := true, currentTaskId := some "t0",
        websocket := some "t0", reconnectAttempts := 3 }) ∧
    (Scraper.startScraping
        { isScrapingActive := false, currentTaskId := none,
          websocket := none, reconnectAttempts := 0 }
        "https://shop.example/a" Scraper.SubmitOutcome.saveFailed).currentTaskId
      = none :=
  ⟨(claim_C7_submit_validation _ "  \n \n" _).1 (by decide),
    ((claim_C7_submit_validation _ "https://shop.example/a" _).2.2
      (by decide) (Or.inl rfl)).2.1⟩

/-- Claim C1 counterexample: with three rows and `dirty = {2}`, deleting
row 0 leaves `dirty = {2}` over a 2-row working sequence — index 2 was not
decremented to 1 and is no longer a valid index, contrary to the claim. -/
theorem claim_C1_counterexample :
    (Editor.deleteRow Editor.exDeleteState 0).modifiedRows = {2} ∧
    (Editor.deleteRow Editor.exDeleteState 0).products.length = 2 ∧
    1 ∉ (Editor.deleteRow Editor.exDeleteState 0).modifiedRows ∧
    ∃ j ∈ (Editor.deleteRow Editor.exDeleteState 0).modifiedRows,
      ¬j < (Editor.deleteRow Editor.exDeleteState 0).products.length := by
  decide

/-- Claim C1 (amended): `deleteRow(k)` removes row `k` from the working
sequence and removes `k` from the dirty set, but leaves every other dirty
index unchanged — indices greater than `k` are not decremented, so a dirty
index may afterwards fall outside the shortened sequence.  (The source
keeps no index set for the selection; the row checkboxes live in the DOM
and are rebuilt unchecked by the re-render that follows the deletion.) -/
theorem claim_C1_delete_amended (s : Editor.EditorState) (k : Nat) :
    Editor.deleteRow s k =
      { products := s.products.eraseIdx k
        originalProducts := s.originalProducts
        modifiedRows := s.modifiedRows.erase k
        heap := s.heap } ∧
    (∀ j ∈ s.modifiedRows, j ≠ k → j ∈ (Editor.deleteRow s k).modifiedRows) ∧
    k ∉ (Editor.deleteRow s k).modifiedRows := by
  refine ⟨rfl, ?_, ?_⟩
  · intro j hj hne
    simp [Editor.deleteRow, Finset.mem_erase, hne, hj]
  · simp [Editor.deleteRow]

/-- Claim C1 witness: the amended deletion law at the concrete three-row
state — the surviving dirty index 2 stays 2. -/
theorem claim_C1_delete_amended_witness :
    2 ∈ (Editor.deleteRow Editor.exDeleteState 0).modifiedRows ∧
    0 ∉ (Editor.deleteRow Editor.exDeleteState 0).modifiedRows :=
  ⟨(claim_C1_delete_amended Editor.exDeleteState 0).2.1 2 (by decide) (by decide),
    (claim_C1_delete_amended Editor.exDeleteState 0).2.2⟩

/-- Claim C10: `addNewProduct` appends exactly one record — named
"New Product", price 0, discounted price 0, availability "in-stock", not
premium, empty sizes/colors/material/categories and an empty image array,
extraction method "manual_add" — and leaves every existing row, the
snapshot and the dirty set unchanged. -/
theorem claim_C10_add_new_product (s : Editor.EditorState) (ts : String) :
    (Editor.addNewProduct s ts).products =
      s.products ++ [Editor.newProduct ts s.heap.length] ∧
    (Editor.addNewProduct s ts).modifiedRows = s.modifiedRows ∧
    (Editor.addNewProduct s ts).originalProducts = s.originalProducts ∧
    (Editor.newProduct ts s.heap.length).product_name = "New Product" ∧
    (Editor.newProduct ts s.heap.length).price = 0 ∧
    (Editor.newProduct ts s.heap.length).discounted_price = 0 ∧
    (Editor.newProduct ts s.heap.length).availability = "in-stock" ∧
    (Editor.newProduct ts s.heap.length).premium = false ∧
    (Editor.newProduct ts s.heap.length).sizes = [] ∧
    (Editor.newProduct ts s.heap.length).colors = [] ∧
    (Editor.newProduct ts s.heap.length).material = "" ∧
    (Editor.newProduct ts s.heap.length).categories = [] ∧
    (Editor.newProduct ts s.heap.length).extraction_method = "manual_add" ∧
    Editor.deepImages (Editor.addNewProduct s ts) s.products.length = [] := by
  refine ⟨rfl, rfl, rfl, rfl, rfl, rfl, rfl, rfl, rfl, rfl, rfl, rfl, rfl, ?_⟩
  simp [Editor.deepImages, Editor.addNewProduct, Editor.newProduct, List.getD]

/-- Helper: toggling keeps an ordered set duplicate-free. -/
theorem toggleValue_nodup (cv : List String) (v : String) (h : cv.Nodup) :
    (Editor.toggleValue cv v).Nodup := by
  unfold Editor.toggleValue
  split
  · exact h.filter _
  · next hv => simp [List.nodup_append, h, hv]

/-- Helper: two toggles of the same value restore the set up to the
position of `v` — exactly when `v` was absent, with `v` moved to the end
when it was present. -/
theorem toggleValue_twice (cv : List String) (v : String) (h : cv.Nodup) :
    (Editor.toggleValue (Editor.toggleValue cv v) v).Perm cv ∧
    (v ∉ cv → Editor.toggleValue (Editor.toggleValue cv v) v = cv) ∧
    (v ∈ cv → Editor.toggleValue (Editor.toggleValue cv v) v =
      cv.filter (fun x => x ≠ v) ++ [v]) := by
  by_cases hv : v ∈ cv
  · have h1 : Editor.toggleValue cv v = cv.filter (fun x => x ≠ v) := by
      simp [Editor.toggleValue, hv]
    have hvnot : v ∉ cv.filter (fun x => x ≠ v) := by
      simp [List.mem_filter]
    have h2 : Editor.toggleValue (Editor.toggleValue cv v) v =
        cv.filter (fun x => x ≠ v) ++ [v] := by
      rw [h1]; simp [Editor.toggleValue, hvnot]
    have efilter : cv.filter (fun x => x ≠ v) = cv.erase v := by
      rw [h.erase_eq_filter v]
      apply List.filter_congr
      intro x _
      by_cases hxv : x = v <;> simp [hxv]
    refine ⟨?_, fun hc => absurd hv hc, fun _ => h2⟩
    rw [h2]
    refine (List.perm_append_singleton v _).trans ?_
    rw [efilter]
    exact (List.perm_cons_erase hv).symm
  · have h1 : Editor.toggleValue cv v = cv ++ [v] := by
      simp [Editor.toggleValue, hv]
    have hvmem : v ∈ cv ++ [v] := by simp
    have hfcv : cv.filter (fun x => x ≠ v) = cv := by
      refine List.filter_eq_self.mpr ?_
      intro a ha
      simp only [ne_eq, decide_eq_true_eq]
      exact fun heq => hv (heq ▸ ha)
    have h2 : Editor.toggleValue (Editor.toggleValue cv v) v = cv := by
      rw [h1]
      simp only [Editor.toggleValue, if_pos hvmem, List.filter_append]
      rw [hfcv]
      simp
    exact ⟨by rw [h2], fun _ => h2, fun hc => absurd hc hv⟩

/-- Helper: reading back a field just written by `updateProductValue`
returns the written list, for every field stored as a list (all but
`materials`, which collapses to its head). -/
theorem getCurrentValues_updateProductValue (s : Editor.EditorState)
    (f : Editor.Field) (v : List String) (i : Nat)
    (hf : f ≠ Editor.Field.materials) (hi : i < s.products.length) :
    Editor.getCurrentValues (Editor.updateProductValue s f v i) f i = v := by
  obtain ⟨p, hp⟩ : ∃ p, s.products[i]? = some p := by
    simp [List.getElem?_eq_getElem hi]
  have hset : (s.products.set i (Editor.setField p f v))[i]? =
      some (Editor.setField p f v) := by
    simp [List.getElem?_set, hi]
  unfold Editor.updateProductValue
  rw [hp]
  show Editor.getCurrentValues
    { s with products := s.products.set i (Editor.setField p f v),
             modifiedRows := insert i s.modifiedRows } f i = v
  unfold Editor.getCurrentValues
  simp only [hset]
  cases f with
  | sizes => rfl
  | colors => rfl
  | materials => exact absurd rfl hf
  | categories => rfl

/-- Helper: `selectOption` keeps the length of the working sequence. -/
theorem selectOption_products_length (s : Editor.EditorState)
    (f : Editor.Field) (i : Nat) (v : String) (m : Bool) :
    (Editor.selectOption s f i v m).products.length = s.products.length := by
  unfold Editor.selectOption Editor.updateProductValue Editor.markModified
  cases hip : s.products[i]? <;> simp [*]

/-- Helper: a multi-select `selectOption` reads back as `toggleValue` of
the previous values. -/
theorem getCurrentValues_selectOption (s : Editor.EditorState)
    (f : Editor.Field) (i : Nat) (v : String)
    (hf : f ≠ Editor.Field.materials) (hi : i < s.products.length) :
    Editor.getCurrentValues (Editor.selectOption s f i v true) f i =
      Editor.toggleValue (Editor.getCurrentValues s f i) v := by
  show Editor.getCurrentValues
    (Editor.updateProductValue s f
      (Editor.toggleValue (Editor.getCurrentValues s f i) v) i) f i = _
  exact getCurrentValues_updateProductValue s f _ i hf hi

/-- Claim C2 counterexample: on sizes `["S", "M"]`, toggling `"S"` twice
yields `["M", "S"]`, not the original ordered set `["S", "M"]` — the
second toggle re-appends the value at the end instead of restoring its
position. -/
theorem claim_C2_counterexample :
    Editor.getCurrentValues
        (Editor.selectOption
          (Editor.selectOption Editor.exToggleState .sizes 0 "S" true)
          .sizes 0 "S" true)
        .sizes 0 = ["M", "S"] ∧
    (["M", "S"] : List String) ≠ ["S", "M"] := by
  constructor
  · decide
  · decide

/-- Claim C2 (amended): for a list-stored field edited through the
multi-select path, toggling the same value twice restores the original
values as an unordered duplicate-free set: the result is a permutation of
the original; it equals the original exactly when the value was absent
(added then removed), while an initially present value is removed and then
re-appended at the end; no duplicate is introduced at either step. -/
theorem claim_C2_toggle_amended (s : Editor.EditorState) (f : Editor.Field)
    (i : Nat) (v : String) (hf : f ≠ Editor.Field.materials)
    (hi : i < s.products.length)
    (hnd : (Editor.getCurrentValues s f i).Nodup) :
    (Editor.getCurrentValues
        (Editor.selectOption (Editor.selectOption s f i v true) f i v true)
        f i).Perm (Editor.getCurrentValues s f i) ∧
    (v ∉ Editor.getCurrentValues s f i →
      Editor.getCurrentValues
        (Editor.selectOption (Editor.selectOption s f i v true) f i v true)
        f i = Editor.getCurrentValues s f i) ∧
    (v ∈ Editor.getCurrentValues s f i →
      Editor.getCurrentValues
        (Editor.selectOption (Editor.selectOption s f i v true) f i v true)
        f i =
        (Editor.getCurrentValues s f i).filter (fun x => x ≠ v) ++ [v]) ∧
    (Editor.getCurrentValues (Editor.selectOption s f i v true) f i).Nodup ∧
    (Editor.getCurrentValues
        (Editor.selectOption (Editor.selectOption s f i v true) f i v true)
        f i).Nodup := by
  have hi1 : i < (Editor.selectOption s f i v true).products.length := by
    rw [selectOption_products_length]; exact hi
  have e1 := getCurrentValues_selectOption s f i v hf hi
  have e2 := getCurrentValues_selectOption
    (Editor.selectOption s f i v true) f i v hf hi1
  rw [e2, e1]
  obtain ⟨hperm, habs, hpres⟩ :=
    toggleValue_twice (Editor.getCurrentValues s f i) v hnd
  exact ⟨hperm, habs, hpres, e1 ▸ toggleValue_nodup _ v hnd,
    toggleValue_nodup _ v (toggleValue_nodup _ v hnd)⟩

/-- Claim C2 witness: the amended toggle law at the concrete one-row state
with sizes `["S", "M"]` and value `"S"`. -/
theorem claim_C2_toggle_amended_witness :
    (Editor.getCurrentValues
        (Editor.selectOption
          (Editor.selectOption Editor.exToggleState .sizes 0 "S" true)
          .sizes 0 "S" true)
        .sizes 0).Perm
      (Editor.getCurrentValues Editor.exToggleState .sizes 0) :=
  (claim_C2_toggle_amended Editor.exToggleState .sizes 0 "S" (by decide)
    (by decide) (by decide)).1

/-- Helper: reading a just-written heap cell. -/
theorem getD_set_self {α : Type} (l : List α) (r : Nat) (x d : α)
    (hr : r < l.length) : (l.set r x).getD r d = x := by
  simp [List.getD, List.getElem?_set, hr]

/-- Helper: writing one heap cell leaves every other cell unchanged. -/
theorem getD_set_ne {α : Type} (l : List α) (r r' : Nat) (x d : α)
    (hne : r ≠ r') : (l.set r x).getD r' d = l.getD r' d := by
  simp [List.getD, List.getElem?_set, hne]

/-- Helper: extending the heap leaves existing cells unchanged. -/
theorem getD_append_left {α : Type} (l l' : List α) (r : Nat) (d : α)
    (hr : r < l.length) : (l ++ l').getD r d = l.getD r d := by
  simp [List.getD, List.getElem?_append_left hr]

/-- Helper: the freshly appended heap cell. -/
theorem getD_concat_self {α : Type} (l : List α) (x d : α) :
    (l ++ [x]).getD l.length d = x := by
  simp [List.getD]

/-- Helper: `setField` never touches the image reference. -/
theorem setField_product_images (p : Editor.Product) (f : Editor.Field)
    (v : List String) :
    (Editor.setField p f v).product_images = p.product_images := by
  cases f <;> rfl

/-- Helper: the observable image list of a row, through its record. -/
theorem deepImages_eq (s : Editor.EditorState) (i : Nat)
    (p : Editor.Product) (hp : s.products[i]? = some p) :
    Editor.deepImages s i = s.heap.getD p.product_images [] := by
  unfold Editor.deepImages
  rw [hp]

/-- Helper: `duplicateRow` at a valid index, unfolded. -/
theorem duplicateRow_eq (s : Editor.EditorState) (i : Nat)
    (p : Editor.Product) (hp : s.products[i]? = some p) :
    Editor.duplicateRow s i =
      { s with products :=
          s.products ++ [{ p with product_name := p.product_name ++ " (Copy)" }] } := by
  unfold Editor.duplicateRow
  rw [hp]

/-- Helper: `removeImage` at a valid index, unfolded. -/
theorem removeImage_eq (s : Editor.EditorState) (pIdx iIdx : Nat)
    (p : Editor.Product) (hp : s.products[pIdx]? = some p) :
    Editor.removeImage s pIdx iIdx =
      { s with
        heap := s.heap.set p.product_images
          ((s.heap.getD p.product_images []).eraseIdx iIdx)
        modifiedRows := insert pIdx s.modifiedRows } := by
  unfold Editor.removeImage Editor.markModified
  rw [hp]

/-- Helper: `addImage` at a valid index, unfolded. -/
theorem addImage_eq (s : Editor.EditorState) (pIdx : Nat) (u : String)
    (p : Editor.Product) (hp : s.products[pIdx]? = some p) :
    Editor.addImage s pIdx u =
      { s with
        heap := s.heap.set p.product_images
          ((s.heap.getD p.product_images []) ++ [u])
        modifiedRows := insert pIdx s.modifiedRows } := by
  unfold Editor.addImage Editor.markModified
  rw [hp]

/-- Helper: `origPreserved` is reflexive. -/
theorem origPreserved_refl (s : Editor.EditorState) :
    Editor.origPreserved s s :=
  ⟨rfl, le_refl _, fun _ _ => rfl⟩

/-- Helper: `origPreserved` composes along successive states. -/
theorem origPreserved_trans {s t u : Editor.EditorState}
    (h1 : Editor.origPreserved s t) (h2 : Editor.origPreserved t u) :
    Editor.origPreserved s u := by
  obtain ⟨e1, l1, c1⟩ := h1
  obtain ⟨e2, l2, c2⟩ := h2
  refine ⟨e2.trans e1, le_trans l1 l2, fun p hp => ?_⟩
  have hp' : p ∈ t.originalProducts := by rw [e1]; exact hp
  exact (c2 p hp').trans (c1 p hp)

/-- Helper: a `markModified` wrapper changes neither snapshot safety… -/
theorem origOK_markModified (s : Editor.EditorState) (i : Nat) :
    Editor.origOK (Editor.markModified s i) ↔ Editor.origOK s := Iff.rfl

/-- Helper: …nor what is preserved about the snapshot. -/
theorem origPreserved_markModified (s t : Editor.EditorState) (i : Nat) :
    Editor.origPreserved s (Editor.markModified t i) ↔
      Editor.origPreserved s t := Iff.rfl

/-- Helper: one `updateProductValue` step keeps the snapshot safe and
untouched. -/
theorem updv_step (s : Editor.EditorState) (f : Editor.Field)
    (v : List String) (i : Nat) (h : Editor.origOK s) :
    Editor.origOK (Editor.updateProductValue s f v i) ∧
    Editor.origPreserved s (Editor.updateProductValue s f v i) := by
  cases hip : s.products[i]? with
  | none =>
    rw [show Editor.updateProductValue s f v i = s from by
      unfold Editor.updateProductValue; rw [hip]]
    exact ⟨h, origPreserved_refl s⟩
  | some p =>
    rw [show Editor.updateProductValue s f v i =
        Editor.markModified
          { s with products := s.products.set i (Editor.setField p f v) } i from by
      unfold Editor.updateProductValue; rw [hip]]
    rw [origOK_markModified, origPreserved_markModified]
    constructor
    · intro p₀ hp₀
      obtain ⟨hlt, hne⟩ := h p₀ hp₀
      refine ⟨hlt, ?_⟩
      intro q hq
      rcases List.mem_or_eq_of_mem_set hq with hq' | hq'
      · exact hne q hq'
      · rw [hq', setField_product_images]
        exact hne p (List.getElem?_mem hip)
    · exact ⟨rfl, le_refl _, fun _ _ => rfl⟩

/-- Helper: every single editing operation keeps the snapshot safe and
untouched. -/
theorem applyOp_step (s : Editor.EditorState) (op : Editor.EditOp)
    (h : Editor.origOK s) :
    Editor.origOK (Editor.applyOp s op) ∧
    Editor.origPreserved s (Editor.applyOp s op) := by
  cases op with
  | setValues f i v => exact updv_step s f v i h
  | toggle f i v m =>
    obtain ⟨h1, h2⟩ := updv_step s f
      (if m then Editor.toggleValue (Editor.getCurrentValues s f i) v else [v])
      i h
    exact ⟨(origOK_markModified _ i).mpr h1,
      (origPreserved_markModified s _ i).mpr h2⟩
  | removeOpt f i v =>
    obtain ⟨h1, h2⟩ := updv_step s f
      ((Editor.getCurrentValues s f i).filter (fun x => x ≠ v)) i h
    exact ⟨(origOK_markModified _ i).mpr h1,
      (origPreserved_markModified s _ i).mpr h2⟩
  | duplicate i =>
    show Editor.origOK (Editor.duplicateRow s i) ∧
      Editor.origPreserved s (Editor.duplicateRow s i)
    cases hip : s.products[i]? with
    | none =>
      rw [show Editor.duplicateRow s i = s from by
        unfold Editor.duplicateRow; rw [hip]]
      exact ⟨h, origPreserved_refl s⟩
    | some p =>
      rw [duplicateRow_eq s i p hip]
      constructor
      · intro p₀ hp₀
        obtain ⟨hlt, hne⟩ := h p₀ hp₀
        refine ⟨hlt, ?_⟩
        intro q hq
        rcases List.mem_append.mp hq with hq' | hq'
        · exact hne q hq'
        · have hq2 : q = { p with product_name := p.product_name ++ " (Copy)" } := by
            simpa using hq'
          rw [hq2]
          exact hne p (List.getElem?_mem hip)
      · exact ⟨rfl, le_refl _, fun _ _ => rfl⟩
  | delete i =>
    refine ⟨?_, rfl, le_refl _, fun _ _ => rfl⟩
    intro p₀ hp₀
    obtain ⟨hlt, hne⟩ := h p₀ hp₀
    exact ⟨hlt, fun q hq => hne q (List.eraseIdx_subset _ _ hq)⟩
  | addNew ts =>
    constructor
    · intro p₀ hp₀
      obtain ⟨hlt, hne⟩ := h p₀ hp₀
      constructor
      · have h1 : p₀.product_images < (s.heap ++ [[]]).length := by
          simp only [List.length_append]
          omega
        exact h1
      · intro q hq
        rcases List.mem_append.mp hq with hq' | hq'
        · exact hne q hq'
        · have hq2 : q = Editor.newProduct ts s.heap.length := by simpa using hq'
          rw [hq2]
          show s.heap.length ≠ p₀.product_images
          omega
    · refine ⟨rfl, ?_, ?_⟩
      · have h1 : s.heap.length ≤ (s.heap ++ [[]]).length := by
          simp only [List.length_append]
          omega
        exact h1
      · intro p₀ hp₀
        exact getD_append_left _ _ _ _ (h p₀ hp₀).1
  | removeImg pIdx iIdx =>
    show Editor.origOK (Editor.removeImage s pIdx iIdx) ∧
      Editor.origPreserved s (Editor.removeImage s pIdx iIdx)
    cases hip : s.products[pIdx]? with
    | none =>
      rw [show Editor.removeImage s pIdx iIdx = s from by
        unfold Editor.removeImage; rw [hip]]
      exact ⟨h, origPreserved_refl s⟩
    | some p =>
      rw [removeImage_eq s pIdx iIdx p hip]
      have hpmem : p ∈ s.products := List.getElem?_mem hip
      constructor
      · intro p₀ hp₀
        obtain ⟨hlt, hne⟩ := h p₀ hp₀
        have h1 : p₀.product_images <
            (s.heap.set p.product_images
              ((s.heap.getD p.product_images []).eraseIdx iIdx)).length := by
          rw [List.length_set]; exact hlt
        exact ⟨h1, hne⟩
      · refine ⟨rfl, le_of_eq (List.length_set _ _ _).symm, ?_⟩
        intro p₀ hp₀
        exact getD_set_ne _ _ _ _ _ ((h p₀ hp₀).2 p hpmem)
  | addImg pIdx u =>
    show Editor.origOK (Editor.addImage s pIdx u) ∧
      Editor.origPreserved s (Editor.addImage s pIdx u)
    cases hip : s.products[pIdx]? with
    | none =>
      rw [show Editor.addImage s pIdx u = s from by
        unfold Editor.addImage; rw [hip]]
      exact ⟨h, origPreserved_refl s⟩
    | some p =>
      rw [addImage_eq s pIdx u p hip]
      have hpmem : p ∈ s.products := List.getElem?_mem hip
      constructor
      · intro p₀ hp₀
        obtain ⟨hlt, hne⟩ := h p₀ hp₀
        have h1 : p₀.product_images <
            (s.heap.set p.product_images
              ((s.heap.getD p.product_images []) ++ [u])).length := by
          rw [List.length_set]; exact hlt
        exact ⟨h1, hne⟩
      · refine ⟨rfl, le_of_eq (List.length_set _ _ _).symm, ?_⟩
        intro p₀ hp₀
        exact getD_set_ne _ _ _ _ _ ((h p₀ hp₀).2 p hpmem)

/-- Helper: a whole edit sequence keeps the snapshot safe and untouched. -/
theorem applyOps_step (ops : List Editor.EditOp) (s : Editor.EditorState)
    (h : Editor.origOK s) :
    Editor.origOK (Editor.applyOps s ops) ∧
    Editor.origPreserved s (Editor.applyOps s ops) := by
  induction ops generalizing s with
  | nil => exact ⟨h, origPreserved_refl s⟩
  | cons op rest ih =>
    obtain ⟨h1, hp1⟩ := applyOp_step s op h
    obtain ⟨h2, hp2⟩ := ih (Editor.applyOp s op) h1
    exact ⟨h2, origPreserved_trans hp1 hp2⟩

/-- Helper: the deep copy only appends fresh cells to the heap. -/
theorem deepCopyProducts_extends (heap : List (List String))
    (ps : List Editor.Product) :
    ∃ ext, (Editor.deepCopyProducts heap ps).2 = heap ++ ext := by
  induction ps generalizing heap with
  | nil => exact ⟨[], by simp [Editor.deepCopyProducts]⟩
  | cons p rest ih =>
    obtain ⟨ext, hext⟩ := ih (heap ++ [heap.getD p.product_images []])
    refine ⟨[heap.getD p.product_images []] ++ ext, ?_⟩
    show (Editor.deepCopyProducts
      (heap ++ [heap.getD p.product_images []]) rest).2 = _
    rw [hext, List.append_assoc]

/-- Helper: resolving a record in an extended heap gives the same deep
value, provided its reference was live already. -/
theorem deepOf_append (heap ext : List (List String)) (p : Editor.Product)
    (h : p.product_images < heap.length) :
    Editor.deepOf (heap ++ ext) p = Editor.deepOf heap p := by
  unfold Editor.deepOf
  rw [getD_append_left _ _ _ _ h]

/-- Helper: the deep copy deep-equals what it copied — resolved against the
new heap, the copied records have exactly the deep values the originals had
in the old heap. -/
theorem deepCopyProducts_spec (ps : List Editor.Product)
    (heap : List (List String))
    (h : ∀ p ∈ ps, p.product_images < heap.length) :
    Editor.deepProducts (Editor.deepCopyProducts heap ps).2
      (Editor.deepCopyProducts heap ps).1 = Editor.deepProducts heap ps := by
  induction ps generalizing heap with
  | nil => rfl
  | cons p rest ih =>
    have hp : p.product_images < heap.length := h p (List.mem_cons_self p rest)
    obtain ⟨ext, hext⟩ :=
      deepCopyProducts_extends (heap ++ [heap.getD p.product_images []]) rest
    have hhd : Editor.deepOf
        (Editor.deepCopyProducts
          (heap ++ [heap.getD p.product_images []]) rest).2
        { p with product_images := heap.length } = Editor.deepOf heap p := by
      rw [hext]
      unfold Editor.deepOf
      have himg : ((heap ++ [heap.getD p.product_images []]) ++ ext).getD
          heap.length [] = heap.getD p.product_images [] := by
        rw [getD_append_left _ _ _ _ (by simp), getD_concat_self]
      simp only [himg]
    have htl : Editor.deepProducts
        (Editor.deepCopyProducts
          (heap ++ [heap.getD p.product_images []]) rest).2
        (Editor.deepCopyProducts
          (heap ++ [heap.getD p.product_images []]) rest).1 =
        Editor.deepProducts (heap ++ [heap.getD p.product_images []]) rest := by
      apply ih
      intro q hq
      have := h q (List.mem_cons_of_mem p hq)
      simp only [List.length_append]
      omega
    have htl2 : Editor.deepProducts
        (heap ++ [heap.getD p.product_images []]) rest =
        Editor.deepProducts heap rest := by
      apply List.map_congr_left
      intro q hq
      exact deepOf_append heap _ q (h q (List.mem_cons_of_mem p hq))
    show Editor.deepOf
        (Editor.deepCopyProducts
          (heap ++ [heap.getD p.product_images []]) rest).2
        { p with product_images := heap.length } ::
      Editor.deepProducts
        (Editor.deepCopyProducts
          (heap ++ [heap.getD p.product_images []]) rest).2
        (Editor.deepCopyProducts
          (heap ++ [heap.getD p.product_images []]) rest).1 =
      Editor.deepOf heap p :: Editor.deepProducts heap rest
    rw [hhd, htl, htl2]

/-- Claim C3: after any sequence of edit operations — field writes,
toggles, option removals, duplications, deletions, manual additions, image
removals and additions — `resetChanges` makes the working sequence
deep-equal to the snapshot taken at load time and empties the dirty set.
The hypothesis is what the load-time deep copy establishes: the snapshot's
image cells are live and unaliased by the working set. -/
theorem claim_C3_reset_exact (s₀ : Editor.EditorState)
    (ops : List Editor.EditOp) (h : Editor.origOK s₀) :
    Editor.deepProducts (Editor.resetChanges (Editor.applyOps s₀ ops)).heap
        (Editor.resetChanges (Editor.applyOps s₀ ops)).products =
      Editor.deepProducts s₀.heap s₀.originalProducts ∧
    (Editor.resetChanges (Editor.applyOps s₀ ops)).modifiedRows = ∅ := by
  obtain ⟨h', horig, hlen, hcells⟩ := applyOps_step ops s₀ h
  refine ⟨?_, rfl⟩
  have hrefs : ∀ p ∈ (Editor.applyOps s₀ ops).originalProducts,
      p.product_images < (Editor.applyOps s₀ ops).heap.length :=
    fun p hp => (h' p hp).1
  have hspec := deepCopyProducts_spec (Editor.applyOps s₀ ops).originalProducts
    (Editor.applyOps s₀ ops).heap hrefs
  show Editor.deepProducts
      (Editor.deepCopyProducts (Editor.applyOps s₀ ops).heap
        (Editor.applyOps s₀ ops).originalProducts).2
      (Editor.deepCopyProducts (Editor.applyOps s₀ ops).heap
        (Editor.applyOps s₀ ops).originalProducts).1 =
    Editor.deepProducts s₀.heap s₀.originalProducts
  rw [hspec, horig]
  apply List.map_congr_left
  intro p hp
  show Editor.deepOf (Editor.applyOps s₀ ops).heap p = Editor.deepOf s₀.heap p
  unfold Editor.deepOf
  rw [hcells p hp]

/-- Claim C3 witness: the reset-exactness law at a concrete editor state
and a seven-step edit sequence covering every kind of operation. -/
theorem claim_C3_reset_exact_witness :
    Editor.origOK Editor.exResetState ∧
    Editor.deepProducts
        (Editor.resetChanges
          (Editor.applyOps Editor.exResetState Editor.exResetOps)).heap
        (Editor.resetChanges
          (Editor.applyOps Editor.exResetState Editor.exResetOps)).products =
      Editor.deepProducts Editor.exResetState.heap
        Editor.exResetState.originalProducts ∧
    (Editor.resetChanges
        (Editor.applyOps Editor.exResetState Editor.exResetOps)).modifiedRows
      = ∅ :=
  ⟨by decide,
    (claim_C3_reset_exact Editor.exResetState Editor.exResetOps (by decide)).1,
    (claim_C3_reset_exact Editor.exResetState Editor.exResetOps (by decide)).2⟩

/-- Claim C9: `duplicateRow(i)` appends a shallow copy — the new last row
carries the very same `product_images` reference as row `i` (only the name
gets the " (Copy)" suffix), so removing an image at any position from
either of the two rows removes it from the other's observable image list
as well (and adding one adds to both), while row `i`'s record — its name
and every other scalar field — stays untouched. -/
theorem claim_C9_duplicate_shares_images (s : Editor.EditorState) (i : Nat)
    (p : Editor.Product) (hp : s.products[i]? = some p)
    (hr : p.product_images < s.heap.length) (j : Nat) :
    (Editor.duplicateRow s i).products[s.products.length]? =
      some { p with product_name := p.product_name ++ " (Copy)" } ∧
    (Editor.duplicateRow s i).products[i]? = some p ∧
    Editor.deepImages
        (Editor.removeImage (Editor.duplicateRow s i) s.products.length j) i =
      (Editor.deepImages s i).eraseIdx j ∧
    Editor.deepImages
        (Editor.removeImage (Editor.duplicateRow s i) s.products.length j)
        s.products.length =
      (Editor.deepImages s i).eraseIdx j ∧
    Editor.deepImages
        (Editor.removeImage (Editor.duplicateRow s i) i j)
        s.products.length =
      (Editor.deepImages s i).eraseIdx j ∧
    (Editor.removeImage (Editor.duplicateRow s i) s.products.length j).products[i]?
      = some p ∧
    ∀ u, Editor.deepImages
        (Editor.addImage (Editor.duplicateRow s i) s.products.length u) i =
      Editor.deepImages s i ++ [u] := by
  have hi : i < s.products.length := (List.getElem?_eq_some.mp hp).1
  have hdup := duplicateRow_eq s i p hp
  have hcopy : (Editor.duplicateRow s i).products[s.products.length]? =
      some { p with product_name := p.product_name ++ " (Copy)" } := by
    rw [hdup]; simp
  have hrow : (Editor.duplicateRow s i).products[i]? = some p := by
    rw [hdup]
    show (s.products ++ _)[i]? = some p
    rw [List.getElem?_append_left hi]
    exact hp
  have hdeep : Editor.deepImages s i = s.heap.getD p.product_images [] :=
    deepImages_eq s i p hp
  have hremc := removeImage_eq (Editor.duplicateRow s i) s.products.length j
    { p with product_name := p.product_name ++ " (Copy)" } hcopy
  have hremi := removeImage_eq (Editor.duplicateRow s i) i j p hrow
  have hheap : (Editor.duplicateRow s i).heap = s.heap := by rw [hdup]
  have hcell : (Editor.duplicateRow s i).heap.getD
      ({ p with product_name := p.product_name ++ " (Copy)" }).product_images []
      = s.heap.getD p.product_images [] := by rw [hheap]
  refine ⟨hcopy, hrow, ?_, ?_, ?_, ?_, ?_⟩
  · rw [hremc]
    have hip' : ({ Editor.duplicateRow s i with
        heap := (Editor.duplicateRow s i).heap.set
          ({ p with product_name := p.product_name ++ " (Copy)" }).product_images
          (((Editor.duplicateRow s i).heap.getD
            ({ p with product_name := p.product_name ++ " (Copy)" }).product_images
            []).eraseIdx j),
        modifiedRows := insert s.products.length
          (Editor.duplicateRow s i).modifiedRows } : Editor.EditorState).products[i]?
        = some p := hrow
    rw [deepImages_eq _ i p hip']
    show ((Editor.duplicateRow s i).heap.set
        ({ p with product_name := p.product_name ++ " (Copy)" }).product_images
        (((Editor.duplicateRow s i).heap.getD
          ({ p with product_name := p.product_name ++ " (Copy)" }).product_images
          []).eraseIdx j)).getD p.product_images [] = _
    rw [hheap, hdeep]
    exact getD_set_self _ _ _ _ hr
  · rw [hremc]
    have hip' : ({ Editor.duplicateRow s i with
        heap := (Editor.duplicateRow s i).heap.set
          ({ p with product_name := p.product_name ++ " (Copy)" }).product_images
          (((Editor.duplicateRow s i).heap.getD
            ({ p with product_name := p.product_name ++ " (Copy)" }).product_images
            []).eraseIdx j),
        modifiedRows := insert s.products.length
          (Editor.duplicateRow s i).modifiedRows } : Editor.EditorState).products[s.products.length]?
        = some { p with product_name := p.product_name ++ " (Copy)" } := hcopy
    rw [deepImages_eq _ _ _ hip']
    show ((Editor.duplicateRow s i).heap.set
        ({ p with product_name := p.product_name ++ " (Copy)" }).product_images
        (((Editor.duplicateRow s i).heap.getD
          ({ p with product_name := p.product_name ++ " (Copy)" }).product_images
          []).eraseIdx j)).getD p.product_images [] = _
    rw [hheap, hdeep]
    exact getD_set_self _ _ _ _ hr
  · rw [hremi]
    have hip' : ({ Editor.duplicateRow s i with
        heap := (Editor.duplicateRow s i).heap.set p.product_images
          (((Editor.duplicateRow s i).heap.getD p.product_images []).eraseIdx j),
        modifiedRows := insert i
          (Editor.duplicateRow s i).modifiedRows } : Editor.EditorState).products[s.products.length]?
        = some { p with product_name := p.product_name ++ " (Copy)" } := hcopy
    rw [deepImages_eq _ _ _ hip']
    show ((Editor.duplicateRow s i).heap.set p.product_images
        (((Editor.duplicateRow s i).heap.getD p.product_images []).eraseIdx j)).getD
      p.product_images [] = _
    rw [hheap, hdeep]
    exact getD_set_self _ _ _ _ hr
  · rw [hremc]
    exact hrow
  · intro u
    have haddc := addImage_eq (Editor.duplicateRow s i) s.products.length u
      { p with product_name := p.product_name ++ " (Copy)" } hcopy
    rw [haddc]
    have hip' : ({ Editor.duplicateRow s i with
        heap := (Editor.duplicateRow s i).heap.set
          ({ p with product_name := p.product_name ++ " (Copy)" }).product_images
          ((Editor.duplicateRow s i).heap.getD
            ({ p with product_name := p.product_name ++ " (Copy)" }).product_images
            [] ++ [u]),
        modifiedRows := insert s.products.length
          (Editor.duplicateRow s i).modifiedRows } : Editor.EditorState).products[i]?
        = some p := hrow
    rw [deepImages_eq _ i p hip']
    show ((Editor.duplicateRow s i).heap.set
        ({ p with product_name := p.product_name ++ " (Copy)" }).product_images
        ((Editor.duplicateRow s i).heap.getD
          ({ p with product_name := p.product_name ++ " (Copy)" }).product_images
          [] ++ [u])).getD p.product_images [] = _
    rw [hheap, hdeep]
    exact getD_set_self _ _ _ _ hr

/-- Claim C9 witness: the sharing law at a concrete one-row state with two
images — removing the first image of the duplicate also removes it from
row 0. -/
theorem claim_C9_duplicate_shares_images_witness :
    Editor.exDupState.products[0]? = some (Editor.exP "g" 0) ∧
    Editor.deepImages
        (Editor.removeImage (Editor.duplicateRow Editor.exDupState 0) 1 0) 0 =
      ["i2"] :=
  ⟨by decide,
    ((claim_C9_duplicate_shares_images Editor.exDupState 0 (Editor.exP "g" 0)
      (by decide) (by decide) 0).2.2.1).trans (by decide)⟩
